import Mathlib

/-!
Verification of `src/sentry/buffer/base.py` (the `Buffer` class of sentry's buffer
subsystem) against its natural-language specification.

The Python class is shallowly embedded: the per-instance callback registry becomes a
field of a `Buffer` structure, Python dicts become association lists with
insert-overwrite semantics, and the ambient effects of the methods (the celery task
queue reached through `apply_async`, the backing database reached through
`create_or_update`, the `buffer_incr_complete` signal, callback invocations and
deprecation warnings) become fields of an explicit `Env` record threaded through each
method.  Methods that raise (`apply`, `process_cb` raise `NotImplementedError`) return
`Except`.  Code that the fragment only calls into — the backing store's
`create_or_update`, the signal's `send_robust`, the task worker — is modelled from the
specification, as marked on the individual definitions.
-/

namespace SentryBuffer

/-- Identifier standing for a registered Python callable; invocations of callbacks are
recorded as `(id, value)` pairs in a log rather than executing foreign code. -/
abbrev CbId := Nat

/-- Python dict assignment `d[k] = v`: replace the binding in place if the key is
present, otherwise append a fresh binding. -/
def dictSet {α : Type} (d : List (String × α)) (k : String) (v : α) : List (String × α) :=
  match d with
  | [] => [(k, v)]
  | (k1, v1) :: rest => if k1 = k then (k, v) :: rest else (k1, v1) :: dictSet rest k v

/-- Python dict lookup `d[k]`, `none` playing the role of `KeyError`. -/
def dictGet {α : Type} (d : List (String × α)) (k : String) : Option α :=
  match d with
  | [] => none
  | (k1, v1) :: rest => if k1 = k then some v1 else dictGet rest k

/-- Python membership test `k in d`. -/
def dictMem {α : Type} (d : List (String × α)) (k : String) : Bool :=
  (dictGet d k).isSome

/-- Python `d.update(e)`: fold every binding of `e` into `d`, overwriting clashes. -/
def dictUpdate {α : Type} (d e : List (String × α)) : List (String × α) :=
  e.foldl (fun acc kv => dictSet acc kv.1 kv.2) d

/-- The keys of a dict, in storage order. -/
def keys {α : Type} (d : List (String × α)) : List String := d.map Prod.fst

/-- A well-formed Python dict carries each key at most once. -/
def NodupKeys {α : Type} (d : List (String × α)) : Prop := (keys d).Nodup

instance {α : Type} (d : List (String × α)) : Decidable (NodupKeys d) :=
  inferInstanceAs (Decidable (keys d).Nodup)

/-- A value of the `values=` mapping handed to the backing store: either a relative
increment (the embedding of the Django expression `F(c) + v`) or a plain overwrite
(an entry coming from `extra`). -/
inductive UpdVal
  | incrBy (d : Int)
  | setTo (v : Int)
deriving DecidableEq

/-- One row of the backing store: the filter values that identify it and its
current column values. -/
structure Record where
  filters : List (String × Int)
  fields : List (String × Int)
deriving DecidableEq

/-- The payload of the `buffer_incr_complete` signal sent at the end of
`process_incr`. -/
structure IncrCompleteEvent where
  model : String
  columns : List (String × Int)
  filters : List (String × Int)
  extra : Option (List (String × Int))
  created : Bool
  sender : String
deriving DecidableEq

/-- An asynchronous unit of work submitted with `apply_async`: either a
`process_incr` task or a `process_cb` task, carrying its keyword arguments. -/
inductive BufTask
  | processIncrTask (model : String) (columns : List (String × Int))
      (filters : List (String × Int)) (extra : Option (List (String × Int)))
  | processCbTask (name : String) (value : Int)
deriving DecidableEq

/-- The ambient world a `Buffer` method acts on: the celery queue, the backing
store, the signal's subscribers together with the log of emitted events and of
per-subscriber delivery outcomes, the log of callback invocations, and the warning
stream. -/
structure Env where
  taskQueue : List BufTask
  store : List Record
  subscribers : List (IncrCompleteEvent → Option Unit)
  signalLog : List IncrCompleteEvent
  deliveries : List (List (Option Unit))
  invocations : List (CbId × Int)
  warnings : List String

/-- A freshly initialised world: nothing queued, stored, delivered or warned. -/
def Env.init : Env :=
  { taskQueue := [], store := [], subscribers := [], signalLog := [], deliveries := [],
    invocations := [], warnings := [] }

/-- Errors a `Buffer` method can raise; the source raises `NotImplementedError` both
in `apply` and in `process_cb`. -/
inductive BufErr
  | notImplemented
deriving DecidableEq

/-- The per-instance state of `Buffer`: just the callback registry set up by
`__init__`. -/
structure Buffer where
  registry : List (String × CbId)
deriving DecidableEq

/-- `Buffer.__init__`: `self.registry = {}`. -/
def Buffer.init : Buffer := { registry := [] }

/-- `register_cb(self, name, cb)`: `self.registry[name] = cb`. -/
def Buffer.register_cb (b : Buffer) (name : String) (cb : CbId) : Buffer :=
  { b with registry := dictSet b.registry name cb }

/-- `apply(self, name, value)`: raise `NotImplementedError` when `name not in
self.registry`, otherwise `process_cb.apply_async(kwargs={...})`, embedded as
appending a `processCbTask` to the task queue. -/
def Buffer.apply (b : Buffer) (env : Env) (name : String) (value : Int) :
    Except BufErr (Buffer × Env) :=
  if dictMem b.registry name = false then
    Except.error BufErr.notImplemented
  else
    Except.ok (b, { env with taskQueue := env.taskQueue ++ [BufTask.processCbTask name value] })

/-- `incr(self, model, columns, filters, extra=None)`:
`process_incr.apply_async(kwargs={...})`, embedded as appending a
`processIncrTask` to the task queue. -/
def Buffer.incr (b : Buffer) (env : Env) (model : String)
    (columns filters : List (String × Int)) (extra : Option (List (String × Int))) :
    Buffer × Env :=
  (b, { env with taskQueue :=
          env.taskQueue ++ [BufTask.processIncrTask model columns filters extra] })

/-- `validate(self)`: the default backend accepts any configuration. -/
def Buffer.validate (b : Buffer) (env : Env) : Buffer × Env := (b, env)

/-- `process_pending_incr(self)`: `return []`. -/
def Buffer.process_pending_incr (b : Buffer) (env : Env) : (Buffer × Env) × List BufTask :=
  ((b, env), [])

/-- `process_pending_cb(self)`: `return []`. -/
def Buffer.process_pending_cb (b : Buffer) (env : Env) : (Buffer × Env) × List BufTask :=
  ((b, env), [])

/-- `process_pending(self)`: run `process_pending_incr` then `process_pending_cb`,
discarding their results. -/
def Buffer.process_pending (b : Buffer) (env : Env) : Buffer × Env :=
  let r1 := Buffer.process_pending_incr b env
  let r2 := Buffer.process_pending_cb r1.1.1 r1.1.2
  r2.1

/-- The value of `old` after applying one update entry: an increment adds its delta
to the current value (a missing column counts as `0`), an overwrite replaces it. -/
def evalUpd (old : Option Int) : UpdVal → Int
  | UpdVal.incrBy d => old.getD 0 + d
  | UpdVal.setTo v => v

/-- Apply one `values=` entry to a row's fields. -/
def applyUpd (fields : List (String × Int)) (cu : String × UpdVal) : List (String × Int) :=
  dictSet fields cu.1 (evalUpd (dictGet fields cu.1) cu.2)

/-- Apply a whole `values=` mapping to a row's fields, left to right. -/
def updateFields (fields : List (String × Int)) (values : List (String × UpdVal)) :
    List (String × Int) :=
  values.foldl applyUpd fields

/-- Modelled from the spec: `model.objects.create_or_update(values=..., **filters)` —
the backing store's atomic "find-or-create with column increments and field
overwrites" (the manager method itself is not part of the provided source).  If some
record matches the filters, every matching record has the values applied to its
fields and the created flag is `false`; otherwise a record is created whose initial
fields are the values applied to an empty row (so an increment's delta becomes the
initial value) and the created flag is `true`. -/
def create_or_update (store : List Record) (filters : List (String × Int))
    (values : List (String × UpdVal)) : List Record × Bool :=
  if store.any fun r => decide (r.filters = filters) then
    (store.map fun r =>
        if r.filters = filters then { r with fields := updateFields r.fields values } else r,
      false)
  else
    (store ++ [{ filters := filters, fields := updateFields [] values }], true)

/-- Lines 87-89 of the source: `update_kwargs = dict((c, F(c) + v) for c, v in
six.iteritems(columns))` followed by `if extra: update_kwargs.update(extra)` (both
`None` and an empty dict are falsy, so either skips the update). -/
def mkUpdateKwargs (columns : List (String × Int)) (extra : Option (List (String × Int))) :
    List (String × UpdVal) :=
  match extra with
  | none => columns.map fun cv => (cv.1, UpdVal.incrBy cv.2)
  | some e =>
      if e.isEmpty then columns.map fun cv => (cv.1, UpdVal.incrBy cv.2)
      else dictUpdate (columns.map fun cv => (cv.1, UpdVal.incrBy cv.2))
             (e.map fun cv => (cv.1, UpdVal.setTo cv.2))

/-- Whether a column name is untouched by the `extra` overwrites (trivially so when
`extra` is `None`). -/
def keyAbsent (c : String) : Option (List (String × Int)) → Bool
  | none => true
  | some e => (dictGet e c).isNone

/-- Modelled from the spec: `buffer_incr_complete.send_robust` (Django signal
dispatch, defined outside the provided source) delivers the event to every
subscriber in order; a subscriber that raises contributes `none` in its own slot
and neither aborts the send nor affects delivery to the others. -/
def send_robust (subs : List (IncrCompleteEvent → Option Unit)) (ev : IncrCompleteEvent) :
    List (Option Unit) :=
  subs.map fun s => s ev

/-- `process_incr(self, model, columns, filters, extra=None)`: build `update_kwargs`,
issue one `create_or_update` against the backing store, then send the
`buffer_incr_complete` signal robustly with the call's arguments and the created
flag. -/
def Buffer.process_incr (b : Buffer) (env : Env) (model : String)
    (columns filters : List (String × Int)) (extra : Option (List (String × Int))) :
    Buffer × Env :=
  let update_kwargs := mkUpdateKwargs columns extra
  let r := create_or_update env.store filters update_kwargs
  let ev : IncrCompleteEvent :=
    { model := model, columns := columns, filters := filters, extra := extra,
      created := r.2, sender := model }
  (b, { env with
        store := r.1
        signalLog := env.signalLog ++ [ev]
        deliveries := env.deliveries ++ [send_robust env.subscribers ev] })

/-- `process_cb(self, name, value)`: `cb = self.registry[name]` with the `KeyError`
re-raised as `NotImplementedError`, then `cb(value=value)`, recorded in the
invocation log. -/
def Buffer.process_cb (b : Buffer) (env : Env) (name : String) (value : Int) :
    Except BufErr (Buffer × Env) :=
  match dictGet b.registry name with
  | none => Except.error BufErr.notImplemented
  | some cb => Except.ok (b, { env with invocations := env.invocations ++ [(cb, value)] })

/-- The message passed to `warnings.warn` by `process`. -/
def deprecationMessage : String := "buffer.process is deprecated, use buffer.process_incr"

/-- `process(self, model, columns, filters, extra=None)`: emit the deprecation
warning, then `self.process_incr(model, columns, filters, extra)`. -/
def Buffer.process (b : Buffer) (env : Env) (model : String)
    (columns filters : List (String × Int)) (extra : Option (List (String × Int))) :
    Buffer × Env :=
  Buffer.process_incr b { env with warnings := env.warnings ++ [deprecationMessage] }
    model columns filters extra

/-- Modelled from the spec: the external task scheduler eventually executes an
enqueued task; the `process_incr` and `process_cb` tasks (defined in
`sentry.tasks.process_buffer`, outside the provided source) call back into the
buffer methods of the same names. -/
def runTask (b : Buffer) (env : Env) : BufTask → Except BufErr (Buffer × Env)
  | BufTask.processIncrTask model columns filters extra =>
      Except.ok (Buffer.process_incr b env model columns filters extra)
  | BufTask.processCbTask name value => Buffer.process_cb b env name value

/-- A world of several `Buffer()` objects, indexed by identity; `register_cb` on
instance `i` is Python attribute mutation of that one object, leaving every other
instance untouched. -/
def registerCbAt (w : Nat → Buffer) (i : Nat) (name : String) (cb : CbId) : Nat → Buffer :=
  fun j => if j = i then Buffer.register_cb (w j) name cb else w j

/-! ### Dictionary lemmas -/

@[simp]
theorem keys_nil {α : Type} : keys ([] : List (String × α)) = [] := rfl

@[simp]
theorem keys_cons {α : Type} (p : String × α) (d : List (String × α)) :
    keys (p :: d) = p.1 :: keys d := rfl

theorem dictGet_dictSet_self {α : Type} (d : List (String × α)) (k : String) (v : α) :
    dictGet (dictSet d k v) k = some v := by
  induction d with
  | nil => simp [dictSet, dictGet]
  | cons hd tl ih =>
    obtain ⟨k1, v1⟩ := hd
    by_cases h : k1 = k
    · simp [dictSet, dictGet, h]
    · simp [dictSet, dictGet, h, ih]

theorem dictGet_dictSet_ne {α : Type} {c k : String} (h : c ≠ k)
    (d : List (String × α)) (v : α) :
    dictGet (dictSet d k v) c = dictGet d c := by
  induction d with
  | nil => simp [dictSet, dictGet, Ne.symm h]
  | cons hd tl ih =>
    obtain ⟨k1, v1⟩ := hd
    by_cases h1 : k1 = k
    · subst h1
      simp [dictSet, dictGet, Ne.symm h]
    · by_cases h2 : k1 = c
      · simp [dictSet, dictGet, h1, h2, h]
      · simp [dictSet, dictGet, h1, h2, ih]

theorem dictGet_eq_none_iff {α : Type} (d : List (String × α)) (k : String) :
    dictGet d k = none ↔ k ∉ keys d := by
  induction d with
  | nil => simp [dictGet]
  | cons hd tl ih =>
    obtain ⟨k1, v1⟩ := hd
    by_cases h : k1 = k
    · subst h
      simp [dictGet]
    · have hne : ¬k = k1 := fun hh => h hh.symm
      simp [dictGet, h, hne, ih]

theorem mem_keys_of_mem {α : Type} {d : List (String × α)} {p : String × α}
    (h : p ∈ d) : p.1 ∈ keys d :=
  List.mem_map_of_mem Prod.fst h

theorem dictGet_mem {α : Type} {d : List (String × α)} {k : String} {v : α}
    (h : dictGet d k = some v) : (k, v) ∈ d := by
  induction d with
  | nil => simp [dictGet] at h
  | cons hd tl ih =>
    obtain ⟨k1, v1⟩ := hd
    by_cases hk : k1 = k
    · subst hk
      simp [dictGet] at h
      subst h
      exact List.mem_cons_self _ _
    · simp [dictGet, hk] at h
      exact List.mem_cons_of_mem _ (ih h)

theorem dictGet_of_mem_nodupKeys {α : Type} {d : List (String × α)} {k : String} {v : α}
    (hn : NodupKeys d) (hm : (k, v) ∈ d) : dictGet d k = some v := by
  induction d with
  | nil => simp at hm
  | cons hd tl ih =>
    obtain ⟨k1, v1⟩ := hd
    rw [NodupKeys, keys_cons, List.nodup_cons] at hn
    rcases List.mem_cons.mp hm with heq | hmem
    · injection heq with hk hv
      subst hk
      subst hv
      simp [dictGet]
    · have hk1 : k1 ≠ k := by
        intro hh
        apply hn.1
        rw [hh]
        exact @mem_keys_of_mem _ tl (k, v) hmem
      simp [dictGet, hk1]
      exact ih hn.2 hmem

theorem mem_keys_dictSet_iff {α : Type} (d : List (String × α)) (k c : String) (v : α) :
    c ∈ keys (dictSet d k v) ↔ c = k ∨ c ∈ keys d := by
  induction d with
  | nil => simp [dictSet]
  | cons hd tl ih =>
    obtain ⟨k1, v1⟩ := hd
    by_cases h : k1 = k
    · subst h
      simp [dictSet]
    · simp [dictSet, h, ih]
      tauto

theorem nodupKeys_dictSet {α : Type} {d : List (String × α)} (k : String) (v : α)
    (hn : NodupKeys d) : NodupKeys (dictSet d k v) := by
  induction d with
  | nil => simp [dictSet, NodupKeys]
  | cons hd tl ih =>
    obtain ⟨k1, v1⟩ := hd
    rw [NodupKeys, keys_cons, List.nodup_cons] at hn
    by_cases h : k1 = k
    · subst h
      rw [NodupKeys]
      simp [dictSet]
      exact hn
    · rw [NodupKeys]
      simp only [dictSet, h, if_false, keys_cons, List.nodup_cons]
      refine ⟨?_, ih hn.2⟩
      intro hmem
      rcases (mem_keys_dictSet_iff tl k k1 v).mp hmem with heq | hmem2
      · exact h heq
      · exact hn.1 hmem2

theorem dictUpdate_nil {α : Type} (d : List (String × α)) : dictUpdate d [] = d := rfl

theorem dictUpdate_cons {α : Type} (d : List (String × α)) (p : String × α)
    (e : List (String × α)) :
    dictUpdate d (p :: e) = dictUpdate (dictSet d p.1 p.2) e := rfl

theorem dictGet_dictUpdate_not_mem {α : Type} {e : List (String × α)} {c : String}
    (hc : c ∉ keys e) (d : List (String × α)) :
    dictGet (dictUpdate d e) c = dictGet d c := by
  induction e generalizing d with
  | nil => rfl
  | cons p e ih =>
    obtain ⟨k, v⟩ := p
    simp only [keys_cons, List.mem_cons] at hc
    push_neg at hc
    rw [dictUpdate_cons, ih hc.2]
    exact dictGet_dictSet_ne hc.1 d v

theorem dictGet_dictUpdate_of_mem {α : Type} {e : List (String × α)} {c : String} {v : α}
    (hn : NodupKeys e) (hm : (c, v) ∈ e) (d : List (String × α)) :
    dictGet (dictUpdate d e) c = some v := by
  induction e generalizing d with
  | nil => simp at hm
  | cons p e ih =>
    obtain ⟨k, w⟩ := p
    rw [NodupKeys, keys_cons, List.nodup_cons] at hn
    rw [dictUpdate_cons]
    rcases List.mem_cons.mp hm with heq | hmem
    · injection heq with hk hv
      subst hk
      subst hv
      rw [dictGet_dictUpdate_not_mem hn.1]
      exact dictGet_dictSet_self d c v
    · exact ih hn.2 hmem (dictSet d k w)

theorem nodupKeys_dictUpdate {α : Type} {d : List (String × α)} (e : List (String × α))
    (hn : NodupKeys d) : NodupKeys (dictUpdate d e) := by
  induction e generalizing d with
  | nil => exact hn
  | cons p e ih =>
    rw [dictUpdate_cons]
    exact ih (nodupKeys_dictSet p.1 p.2 hn)

theorem updateFields_nil (fields : List (String × Int)) : updateFields fields [] = fields := rfl

theorem updateFields_cons (fields : List (String × Int)) (p : String × UpdVal)
    (values : List (String × UpdVal)) :
    updateFields fields (p :: values) = updateFields (applyUpd fields p) values := rfl

theorem dictGet_updateFields_not_mem {values : List (String × UpdVal)} {c : String}
    (hc : c ∉ keys values) (fields : List (String × Int)) :
    dictGet (updateFields fields values) c = dictGet fields c := by
  induction values generalizing fields with
  | nil => rfl
  | cons p vs ih =>
    obtain ⟨k, w⟩ := p
    simp only [keys_cons, List.mem_cons] at hc
    push_neg at hc
    rw [updateFields_cons, ih hc.2]
    exact dictGet_dictSet_ne hc.1 fields _

theorem dictGet_updateFields_of_mem {values : List (String × UpdVal)} {c : String}
    {uv : UpdVal} (hn : NodupKeys values) (hm : (c, uv) ∈ values)
    (fields : List (String × Int)) :
    dictGet (updateFields fields values) c = some (evalUpd (dictGet fields c) uv) := by
  induction values generalizing fields with
  | nil => simp at hm
  | cons p vs ih =>
    obtain ⟨k, w⟩ := p
    rw [NodupKeys, keys_cons, List.nodup_cons] at hn
    rw [updateFields_cons]
    rcases List.mem_cons.mp hm with heq | hmem
    · injection heq with hk hv
      subst hk
      subst hv
      rw [dictGet_updateFields_not_mem hn.1]
      exact dictGet_dictSet_self fields c _
    · have hne : c ≠ k := by
        intro hh
        apply hn.1
        rw [← hh]
        exact @mem_keys_of_mem _ vs (c, uv) hmem
      have hstep : dictGet (applyUpd fields (k, w)) c = dictGet fields c :=
        dictGet_dictSet_ne hne fields _
      rw [ih hn.2 hmem (applyUpd fields (k, w)), hstep]

theorem keys_map_snd {α β : Type} (f : α → β) (l : List (String × α)) :
    keys (l.map fun cv => (cv.1, f cv.2)) = keys l := by
  induction l with
  | nil => rfl
  | cons hd tl ih => simp only [List.map_cons, keys_cons, ih]

theorem mem_map_snd {α β : Type} (f : α → β) {l : List (String × α)} {c : String} {v : α}
    (h : (c, v) ∈ l) : (c, f v) ∈ l.map fun cv => (cv.1, f cv.2) :=
  List.mem_map_of_mem (fun cv => (cv.1, f cv.2)) h

theorem nodupKeys_mkUpdateKwargs (columns : List (String × Int))
    (extra : Option (List (String × Int))) (h : NodupKeys columns) :
    NodupKeys (mkUpdateKwargs columns extra) := by
  have hbase : NodupKeys (columns.map fun cv => (cv.1, UpdVal.incrBy cv.2)) := by
    rw [NodupKeys, keys_map_snd]
    exact h
  cases extra with
  | none => exact hbase
  | some e =>
    by_cases he : e.isEmpty
    · simpa [mkUpdateKwargs, he] using hbase
    · simpa [mkUpdateKwargs, he] using nodupKeys_dictUpdate _ hbase

theorem dictGet_mkUpdateKwargs_incr {columns : List (String × Int)} {c : String} {dlt : Int}
    (hcols : NodupKeys columns) (hm : (c, dlt) ∈ columns)
    (extra : Option (List (String × Int))) (hk : keyAbsent c extra = true) :
    dictGet (mkUpdateKwargs columns extra) c = some (UpdVal.incrBy dlt) := by
  have hbase : dictGet (columns.map fun cv => (cv.1, UpdVal.incrBy cv.2)) c =
      some (UpdVal.incrBy dlt) := by
    refine dictGet_of_mem_nodupKeys ?_ (mem_map_snd UpdVal.incrBy hm)
    rw [NodupKeys, keys_map_snd]
    exact hcols
  cases extra with
  | none => exact hbase
  | some e =>
    by_cases he : e.isEmpty
    · simpa [mkUpdateKwargs, he] using hbase
    · have hnone : dictGet e c = none := by
        simpa [keyAbsent, Option.isNone_iff_eq_none] using hk
      have hce : c ∉ keys e := (dictGet_eq_none_iff e c).mp hnone
      have hce2 : c ∉ keys (e.map fun cv => (cv.1, UpdVal.setTo cv.2)) := by
        rwa [keys_map_snd]
      have hred : mkUpdateKwargs columns (some e) =
          dictUpdate (columns.map fun cv => (cv.1, UpdVal.incrBy cv.2))
            (e.map fun cv => (cv.1, UpdVal.setTo cv.2)) := by
        simp [mkUpdateKwargs, he]
      rw [hred, dictGet_dictUpdate_not_mem hce2]
      exact hbase

/-! ### Claim theorems -/

/-- C1 counterexample: re-registering an already present name is not rejected —
after `register_cb b "writer_cb" 1` and then `register_cb _ "writer_cb" 2` the
registry holds callback `2` under `"writer_cb"`, so the existing entry has been
overwritten, contradicting "the existing entry is never overwritten". -/
theorem register_cb_overwrite_cex :
    dictGet (Buffer.register_cb Buffer.init "writer_cb" 1).registry "writer_cb" = some 1 ∧
    dictGet (Buffer.register_cb (Buffer.register_cb Buffer.init "writer_cb" 1)
      "writer_cb" 2).registry "writer_cb" = some 2 ∧
    (Buffer.register_cb (Buffer.register_cb Buffer.init "writer_cb" 1)
      "writer_cb" 2).registry = [("writer_cb", 2)] := by
  decide

/-- C1 (amended): a second call to `register_cb` with the same name is not an error —
`register_cb` always succeeds, and a later registration silently replaces the earlier
entry for that name, so the registry is last-write-wins rather than append-only. -/
theorem register_cb_last_write_wins (b : Buffer) (name : String) (cb1 cb2 : CbId) :
    (Buffer.register_cb b name cb1).registry = dictSet b.registry name cb1 ∧
    dictGet (Buffer.register_cb b name cb1).registry name = some cb1 ∧
    dictGet (Buffer.register_cb (Buffer.register_cb b name cb1) name cb2).registry name =
      some cb2 := by
  refine ⟨rfl, dictGet_dictSet_self b.registry name cb1, ?_⟩
  exact dictGet_dictSet_self (Buffer.register_cb b name cb1).registry name cb2

/-- C6: the deprecated `process` forwards to `process_incr` with the same arguments —
the resulting buffer and every effect component (task queue, store, signal log,
deliveries, invocations, subscribers) coincide, and the only difference is one extra
deprecation warning on the warning stream. -/
theorem process_forwards_to_process_incr (b : Buffer) (env : Env) (model : String)
    (columns filters : List (String × Int)) (extra : Option (List (String × Int))) :
    (Buffer.process b env model columns filters extra).1 =
      (Buffer.process_incr b env model columns filters extra).1 ∧
    (Buffer.process b env model columns filters extra).2.store =
      (Buffer.process_incr b env model columns filters extra).2.store ∧
    (Buffer.process b env model columns filters extra).2.taskQueue =
      (Buffer.process_incr b env model columns filters extra).2.taskQueue ∧
    (Buffer.process b env model columns filters extra).2.signalLog =
      (Buffer.process_incr b env model columns filters extra).2.signalLog ∧
    (Buffer.process b env model columns filters extra).2.deliveries =
      (Buffer.process_incr b env model columns filters extra).2.deliveries ∧
    (Buffer.process b env model columns filters extra).2.invocations =
      (Buffer.process_incr b env model columns filters extra).2.invocations ∧
    (Buffer.process b env model columns filters extra).2.subscribers =
      (Buffer.process_incr b env model columns filters extra).2.subscribers ∧
    (Buffer.process b env model columns filters extra).2.warnings =
      (Buffer.process_incr b env model columns filters extra).2.warnings ++
        [deprecationMessage] :=
  ⟨rfl, rfl, rfl, rfl, rfl, rfl, rfl, rfl⟩

/-- C8: draining is idempotent in the default implementation — `process_pending_incr`
and `process_pending_cb` always return an empty batch and leave the state untouched,
so after a `process_pending` (which changes nothing) a second drain again returns an
empty batch from both. -/
theorem process_pending_idempotent_drain (b : Buffer) (env : Env) :
    (Buffer.process_pending_incr b env).2 = [] ∧
    (Buffer.process_pending_cb b env).2 = [] ∧
    (Buffer.process_pending_incr b env).1 = (b, env) ∧
    (Buffer.process_pending_cb b env).1 = (b, env) ∧
    Buffer.process_pending b env = (b, env) ∧
    (Buffer.process_pending_incr (Buffer.process_pending b env).1
      (Buffer.process_pending b env).2).2 = [] ∧
    (Buffer.process_pending_cb (Buffer.process_pending b env).1
      (Buffer.process_pending b env).2).2 = [] :=
  ⟨rfl, rfl, rfl, rfl, rfl, rfl, rfl⟩

/-- C7 counterexample: `incr` does not run the apply path synchronously — immediately
after `incr` on a fresh world the backing store is still empty and no completion
signal has fired, whereas the synchronous apply path (`process_incr` with the same
arguments) would already have written the record and fired the signal; `incr` has
merely enqueued a task. -/
theorem incr_not_synchronous_cex :
    (Buffer.incr Buffer.init Env.init "Group" [("times_seen", 1)] [("pk", 42)]
      none).2.store = [] ∧
    (Buffer.process_incr Buffer.init Env.init "Group" [("times_seen", 1)] [("pk", 42)]
      none).2.store ≠ [] ∧
    (Buffer.incr Buffer.init Env.init "Group" [("times_seen", 1)] [("pk", 42)]
      none).2.store ≠
      (Buffer.process_incr Buffer.init Env.init "Group" [("times_seen", 1)] [("pk", 42)]
        none).2.store ∧
    (Buffer.incr Buffer.init Env.init "Group" [("times_seen", 1)] [("pk", 42)]
      none).2.signalLog = [] ∧
    (Buffer.process_incr Buffer.init Env.init "Group" [("times_seen", 1)] [("pk", 42)]
      none).2.signalLog ≠ [] ∧
    (Buffer.incr Buffer.init Env.init "Group" [("times_seen", 1)] [("pk", 42)]
      none).2.taskQueue =
      [BufTask.processIncrTask "Group" [("times_seen", 1)] [("pk", 42)] none] := by
  refine ⟨rfl, by decide, by decide, rfl, by decide, rfl⟩

/-- C7 (amended): every call to `incr` immediately enqueues exactly one asynchronous
`process_incr` task carrying the call's arguments and changes nothing else — no
pending store retains anything (the pending-increment batch is always empty) — so the
increment is submitted for dispatch exactly once at the moment of the call; the apply
path itself runs asynchronously when the scheduler executes the task, not
synchronously inside `incr`. -/
theorem incr_enqueues_single_task (b : Buffer) (env : Env) (model : String)
    (columns filters : List (String × Int)) (extra : Option (List (String × Int))) :
    (Buffer.incr b env model columns filters extra).1 = b ∧
    (Buffer.incr b env model columns filters extra).2.taskQueue =
      env.taskQueue ++ [BufTask.processIncrTask model columns filters extra] ∧
    (Buffer.incr b env model columns filters extra).2.store = env.store ∧
    (Buffer.incr b env model columns filters extra).2.signalLog = env.signalLog ∧
    (Buffer.incr b env model columns filters extra).2.invocations = env.invocations ∧
    (Buffer.process_pending_incr b env).2 = [] ∧
    runTask b env (BufTask.processIncrTask model columns filters extra) =
      Except.ok (Buffer.process_incr b env model columns filters extra) :=
  ⟨rfl, rfl, rfl, rfl, rfl, rfl, rfl⟩

/-- C5: after the store write, `process_incr` emits exactly one completion event
carrying the model, columns, filters, extra and the created flag, delivered robustly:
`send_robust` reaches every subscriber, each subscriber's outcome depends only on its
own function (a raising subscriber yields `none` in its own slot without affecting
the others), and the dispatch itself (store write and signal emission) is the same
whatever the subscribers do. -/
theorem process_incr_emits_completion_robust (b : Buffer) (env : Env) (model : String)
    (columns filters : List (String × Int)) (extra : Option (List (String × Int))) :
    (Buffer.process_incr b env model columns filters extra).2.signalLog =
      env.signalLog ++ [⟨model, columns, filters, extra,
        (create_or_update env.store filters (mkUpdateKwargs columns extra)).2, model⟩] ∧
    (Buffer.process_incr b env model columns filters extra).2.deliveries =
      env.deliveries ++ [send_robust env.subscribers ⟨model, columns, filters, extra,
        (create_or_update env.store filters (mkUpdateKwargs columns extra)).2, model⟩] ∧
    (∀ ev : IncrCompleteEvent,
        (send_robust env.subscribers ev).length = env.subscribers.length) ∧
    (∀ ev : IncrCompleteEvent, ∀ i : Nat,
        (send_robust env.subscribers ev)[i]? = (env.subscribers[i]?).map fun s => s ev) ∧
    (∀ subs2 : List (IncrCompleteEvent → Option Unit),
        (Buffer.process_incr b { env with subscribers := subs2 }
            model columns filters extra).2.store =
          (Buffer.process_incr b env model columns filters extra).2.store ∧
        (Buffer.process_incr b { env with subscribers := subs2 }
            model columns filters extra).2.signalLog =
          (Buffer.process_incr b env model columns filters extra).2.signalLog) := by
  refine ⟨rfl, rfl, ?_, ?_, fun subs2 => ⟨rfl, rfl⟩⟩
  · intro ev
    simp [send_robust]
  · intro ev i
    simp [send_robust]

/-- C2: `apply(name, value)` raises exactly when `name` is not in the registry; the
error invokes nothing (the call produces no new state at all), and when the name is
registered, `apply` only appends one asynchronous `process_cb` task carrying
`(name, value)` to the task queue — the invocation log is untouched, so the callback
is not called synchronously. -/
theorem apply_error_iff_unregistered (b : Buffer) (env : Env) (name : String)
    (value : Int) :
    (Buffer.apply b env name value = Except.error BufErr.notImplemented ↔
      dictGet b.registry name = none) ∧
    (∀ cb : CbId, dictGet b.registry name = some cb →
      Buffer.apply b env name value =
        Except.ok (b, { env with
          taskQueue := env.taskQueue ++ [BufTask.processCbTask name value] })) ∧
    (∀ b2 env2, Buffer.apply b env name value = Except.ok (b2, env2) →
      b2 = b ∧ env2.invocations = env.invocations ∧
        env2.taskQueue = env.taskQueue ++ [BufTask.processCbTask name value] ∧
        env2.store = env.store) := by
  cases hmem : dictGet b.registry name with
  | none =>
    refine ⟨?_, ?_, ?_⟩
    · simp [Buffer.apply, dictMem, hmem]
    · intro cb hcb
      cases hcb
    · intro b2 env2 h
      simp [Buffer.apply, dictMem, hmem] at h
  | some cb =>
    refine ⟨?_, ?_, ?_⟩
    · simp [Buffer.apply, dictMem, hmem]
    · intro cb2 hcb
      simp [Buffer.apply, dictMem, hmem]
    · intro b2 env2 h
      simp [Buffer.apply, dictMem, hmem] at h
      obtain ⟨rfl, rfl⟩ := h
      exact ⟨rfl, rfl, rfl, rfl⟩

/-- C2 witness: on a fresh buffer `apply "missing_cb"` raises, while after
registering `"counter_cb"` the same call succeeds and enqueues one task. -/
theorem apply_error_iff_unregistered_witness :
    Buffer.apply Buffer.init Env.init "missing_cb" 7 =
      Except.error BufErr.notImplemented ∧
    Buffer.apply (Buffer.register_cb Buffer.init "counter_cb" 3) Env.init
      "counter_cb" 7 =
      Except.ok (Buffer.register_cb Buffer.init "counter_cb" 3,
        { Env.init with taskQueue := [BufTask.processCbTask "counter_cb" 7] }) := by
  constructor
  · exact (apply_error_iff_unregistered Buffer.init Env.init "missing_cb" 7).1.mpr rfl
  · exact (apply_error_iff_unregistered (Buffer.register_cb Buffer.init "counter_cb" 3)
      Env.init "counter_cb" 7).2.1 3 rfl

/-- C3: `process_cb(name, value)` looks `name` up in the registry and invokes the
registered callback with `value` (recorded as one new entry in the invocation log);
an unregistered name raises the unregistered-capability error and the error case is
exactly the unregistered case. -/
theorem process_cb_invokes_registered (b : Buffer) (env : Env) (name : String)
    (value : Int) :
    (Buffer.process_cb b env name value = Except.error BufErr.notImplemented ↔
      dictGet b.registry name = none) ∧
    (∀ cb : CbId, dictGet b.registry name = some cb →
      Buffer.process_cb b env name value =
        Except.ok (b, { env with invocations := env.invocations ++ [(cb, value)] })) := by
  cases hmem : dictGet b.registry name with
  | none =>
    refine ⟨?_, ?_⟩
    · simp [Buffer.process_cb, hmem]
    · intro cb hcb
      cases hcb
  | some cb =>
    refine ⟨?_, ?_⟩
    · simp [Buffer.process_cb, hmem]
    · intro cb2 hcb
      cases hcb
      simp [Buffer.process_cb, hmem]

/-- C3 witness: on a fresh buffer `process_cb "missing_cb"` raises; after
registering `"counter_cb"` as callback `4`, `process_cb "counter_cb" 11` invokes
callback `4` with value `11`. -/
theorem process_cb_invokes_registered_witness :
    Buffer.process_cb Buffer.init Env.init "missing_cb" 11 =
      Except.error BufErr.notImplemented ∧
    Buffer.process_cb (Buffer.register_cb Buffer.init "counter_cb" 4) Env.init
      "counter_cb" 11 =
      Except.ok (Buffer.register_cb Buffer.init "counter_cb" 4,
        { Env.init with invocations := [(4, 11)] }) := by
  constructor
  · exact (process_cb_invokes_registered Buffer.init Env.init "missing_cb" 11).1.mpr rfl
  · exact (process_cb_invokes_registered (Buffer.register_cb Buffer.init "counter_cb" 4)
      Env.init "counter_cb" 11).2 4 rfl

/-- C9: when `extra` carries a key that also appears in `columns`, the overwrite from
`extra` replaces the increment entry for that column in the update mapping sent to
the store, so the column ends up set to the `extra` value — whatever its previous
value — rather than incremented. -/
theorem extra_overrides_increment (columns e : List (String × Int)) (c : String)
    (v : Int) (hcols : NodupKeys columns) (he : NodupKeys e) (hm : (c, v) ∈ e) :
    dictGet (mkUpdateKwargs columns (some e)) c = some (UpdVal.setTo v) ∧
    ∀ fields : List (String × Int),
      dictGet (updateFields fields (mkUpdateKwargs columns (some e))) c = some v := by
  have hne : ¬e.isEmpty = true := by
    cases e with
    | nil => simp at hm
    | cons hd tl => simp
  have hget : dictGet (mkUpdateKwargs columns (some e)) c = some (UpdVal.setTo v) := by
    have hred : mkUpdateKwargs columns (some e) =
        dictUpdate (columns.map fun cv => (cv.1, UpdVal.incrBy cv.2))
          (e.map fun cv => (cv.1, UpdVal.setTo cv.2)) := by
      simp [mkUpdateKwargs, hne]
    rw [hred]
    refine dictGet_dictUpdate_of_mem ?_ (mem_map_snd UpdVal.setTo hm) _
    rw [NodupKeys, keys_map_snd]
    exact he
  refine ⟨hget, ?_⟩
  intro fields
  have hnd : NodupKeys (mkUpdateKwargs columns (some e)) :=
    nodupKeys_mkUpdateKwargs columns (some e) hcols
  have hres := dictGet_updateFields_of_mem hnd (dictGet_mem hget) fields
  simpa [evalUpd] using hres

/-- C9 witness: with `columns = {times_seen: 1}` and `extra = {times_seen: 0}` the
update mapping carries an overwrite to `0` for `times_seen`, and applying it to a row
whose `times_seen` is `5` sets the column to `0` instead of incrementing it. -/
theorem extra_overrides_increment_witness :
    dictGet (mkUpdateKwargs [("times_seen", 1)] (some [("times_seen", 0)]))
      "times_seen" = some (UpdVal.setTo 0) ∧
    dictGet (updateFields [("times_seen", 5)]
      (mkUpdateKwargs [("times_seen", 1)] (some [("times_seen", 0)])))
      "times_seen" = some 0 := by
  have h := extra_overrides_increment [("times_seen", 1)] [("times_seen", 0)]
    "times_seen" 0 (by decide) (by decide) (by decide)
  exact ⟨h.1, h.2 [("times_seen", 5)]⟩

/-- C10: the registry is per-instance state — a fresh buffer's registry is empty;
`incr`, `apply`, `process_incr`, `process_cb`, `process_pending` and `process` all
leave the registry of the buffer they run on unchanged; and in a world of several
instances, `register_cb` on instance `i` changes only instance `i`. -/
theorem registry_per_instance_frame :
    Buffer.init.registry = [] ∧
    (∀ (b : Buffer) (env : Env) (model : String)
        (columns filters : List (String × Int)) (extra : Option (List (String × Int))),
      ((Buffer.incr b env model columns filters extra).1).registry = b.registry) ∧
    (∀ (b : Buffer) (env : Env) (name : String) (value : Int) (b2 : Buffer) (env2 : Env),
      Buffer.apply b env name value = Except.ok (b2, env2) → b2.registry = b.registry) ∧
    (∀ (b : Buffer) (env : Env) (model : String)
        (columns filters : List (String × Int)) (extra : Option (List (String × Int))),
      ((Buffer.process_incr b env model columns filters extra).1).registry =
        b.registry) ∧
    (∀ (b : Buffer) (env : Env) (name : String) (value : Int) (b2 : Buffer) (env2 : Env),
      Buffer.process_cb b env name value = Except.ok (b2, env2) →
        b2.registry = b.registry) ∧
    (∀ (b : Buffer) (env : Env), ((Buffer.process_pending b env).1).registry =
      b.registry) ∧
    (∀ (b : Buffer) (env : Env) (model : String)
        (columns filters : List (String × Int)) (extra : Option (List (String × Int))),
      ((Buffer.process b env model columns filters extra).1).registry = b.registry) ∧
    (∀ (w : Nat → Buffer) (i : Nat) (name : String) (cb : CbId) (j : Nat),
      j ≠ i → registerCbAt w i name cb j = w j) ∧
    (∀ (w : Nat → Buffer) (i : Nat) (name : String) (cb : CbId),
      registerCbAt w i name cb i = Buffer.register_cb (w i) name cb) := by
  refine ⟨rfl, fun b env model columns filters extra => rfl, ?_,
    fun b env model columns filters extra => rfl, ?_, fun b env => rfl,
    fun b env model columns filters extra => rfl, ?_, ?_⟩
  · intro b env name value b2 env2 h
    cases hmem : dictGet b.registry name with
    | none => simp [Buffer.apply, dictMem, hmem] at h
    | some cb =>
      simp [Buffer.apply, dictMem, hmem] at h
      rw [← h.1]
  · intro b env name value b2 env2 h
    cases hmem : dictGet b.registry name with
    | none => simp [Buffer.process_cb, hmem] at h
    | some cb =>
      simp [Buffer.process_cb, hmem] at h
      rw [← h.1]
  · intro w i name cb j hj
    simp [registerCbAt, hj]
  · intro w i name cb
    simp [registerCbAt]

/-- C10 witness: registering on instance `0` of a two-instance world leaves instance
`1` untouched, and a successful `apply` call leaves the registry of its instance
as it was. -/
theorem registry_per_instance_frame_witness :
    registerCbAt (fun _ => Buffer.init) 0 "counter_cb" 1 1 = Buffer.init ∧
    (Buffer.register_cb Buffer.init "counter_cb" 3).registry =
      (Buffer.register_cb Buffer.init "counter_cb" 3).registry := by
  constructor
  · exact registry_per_instance_frame.2.2.2.2.2.2.2.1 (fun _ => Buffer.init) 0
      "counter_cb" 1 1 (by decide)
  · exact registry_per_instance_frame.2.2.1 (Buffer.register_cb Buffer.init "counter_cb" 3)
      Env.init "counter_cb" 7 (Buffer.register_cb Buffer.init "counter_cb" 3)
      { Env.init with taskQueue := [BufTask.processCbTask "counter_cb" 7] } rfl

/-- C4: `process_incr` issues a single atomic increment-or-create — its resulting
store is the result of one `create_or_update` call on the update mapping built from
`columns` and `extra`.  When no record matches the filters, the created flag is
`true` and one record is appended whose initial fields are the update values, each
plain increment column starting at its delta; when some record matches, the created
flag is `false` and every matching record has each increment column raised by its
delta (and, per the update mapping, `extra` fields overwritten). -/
theorem process_incr_increment_or_create (b : Buffer) (env : Env) (model : String)
    (columns filters : List (String × Int)) (extra : Option (List (String × Int)))
    (hcols : NodupKeys columns) :
    (Buffer.process_incr b env model columns filters extra).2.store =
      (create_or_update env.store filters (mkUpdateKwargs columns extra)).1 ∧
    ((∀ r ∈ env.store, r.filters ≠ filters) →
      (create_or_update env.store filters (mkUpdateKwargs columns extra)).2 = true ∧
      (create_or_update env.store filters (mkUpdateKwargs columns extra)).1 =
        env.store ++
          [⟨filters, updateFields [] (mkUpdateKwargs columns extra)⟩]) ∧
    ((∃ r ∈ env.store, r.filters = filters) →
      (create_or_update env.store filters (mkUpdateKwargs columns extra)).2 = false ∧
      (create_or_update env.store filters (mkUpdateKwargs columns extra)).1 =
        env.store.map fun r =>
          if r.filters = filters
          then { r with fields := updateFields r.fields (mkUpdateKwargs columns extra) }
          else r) ∧
    (∀ (fields : List (String × Int)) (c : String) (dlt : Int),
      (c, dlt) ∈ columns → keyAbsent c extra = true →
      dictGet (updateFields fields (mkUpdateKwargs columns extra)) c =
        some ((dictGet fields c).getD 0 + dlt)) ∧
    (∀ (c : String) (dlt : Int),
      (c, dlt) ∈ columns → keyAbsent c extra = true →
      dictGet (updateFields [] (mkUpdateKwargs columns extra)) c = some dlt) := by
  have hcol : ∀ (fields : List (String × Int)) (c : String) (dlt : Int),
      (c, dlt) ∈ columns → keyAbsent c extra = true →
      dictGet (updateFields fields (mkUpdateKwargs columns extra)) c =
        some ((dictGet fields c).getD 0 + dlt) := by
    intro fields c dlt hm hk
    have hget : dictGet (mkUpdateKwargs columns extra) c = some (UpdVal.incrBy dlt) :=
      dictGet_mkUpdateKwargs_incr hcols hm extra hk
    have hnd : NodupKeys (mkUpdateKwargs columns extra) :=
      nodupKeys_mkUpdateKwargs columns extra hcols
    have hres := dictGet_updateFields_of_mem hnd (dictGet_mem hget) fields
    simpa [evalUpd] using hres
  refine ⟨rfl, ?_, ?_, hcol, ?_⟩
  · intro h
    have hany : (env.store.any fun r => decide (r.filters = filters)) = false := by
      rw [List.any_eq_false]
      intro r hr
      simpa using h r hr
    constructor
    · simp [create_or_update, hany]
    · simp [create_or_update, hany]
  · intro h
    have hany : (env.store.any fun r => decide (r.filters = filters)) = true := by
      rw [List.any_eq_true]
      obtain ⟨r, hr, hrf⟩ := h
      exact ⟨r, hr, by simpa using hrf⟩
    constructor
    · simp [create_or_update, hany]
    · simp [create_or_update, hany]
  · intro c dlt hm hk
    have hres := hcol [] c dlt hm hk
    simpa [dictGet] using hres

/-- C4 witness: with `columns = {times_seen: 1}` and `filters = {pk: 42}`, on an
empty store the dispatch creates the record with `times_seen = 1` and reports
`created = true`; on a store already holding that record with `times_seen = 5`, the
dispatch reports `created = false` and the update raises `times_seen` to `6`. -/
theorem process_incr_increment_or_create_witness :
    (create_or_update [] [("pk", 42)] (mkUpdateKwargs [("times_seen", 1)] none)).2 =
      true ∧
    (create_or_update [⟨[("pk", 42)], [("times_seen", 5)]⟩] [("pk", 42)]
      (mkUpdateKwargs [("times_seen", 1)] none)).2 = false ∧
    dictGet (updateFields [] (mkUpdateKwargs [("times_seen", 1)] none)) "times_seen" =
      some 1 ∧
    dictGet (updateFields [("times_seen", 5)] (mkUpdateKwargs [("times_seen", 1)] none))
      "times_seen" = some 6 := by
  have h1 := process_incr_increment_or_create Buffer.init Env.init "Group"
    [("times_seen", 1)] [("pk", 42)] none (by decide)
  have h2 := process_incr_increment_or_create Buffer.init
    { Env.init with store := [⟨[("pk", 42)], [("times_seen", 5)]⟩] } "Group"
    [("times_seen", 1)] [("pk", 42)] none (by decide)
  refine ⟨?_, ?_, ?_, ?_⟩
  · exact (h1.2.1 (by intro r hr; simp [Env.init] at hr)).1
  · exact (h2.2.2.1 ⟨⟨[("pk", 42)], [("times_seen", 5)]⟩, by simp, rfl⟩).1
  · exact h1.2.2.2.2 "times_seen" 1 (by simp) (by decide)
  · have hres := h2.2.2.2.1 [("times_seen", 5)] "times_seen" 1 (by simp) (by decide)
    simpa [dictGet] using hres

end SentryBuffer
